import Mathlib

/-!
Verification development for the blog repository's two auxiliary pieces of
logic: the `scripts/sync-devto.mjs` one-way publisher/reconciler and the
`src/utils/base.ts` base-path helper.

The embedding is shallow: the script's pure computations become Lean
functions; its HTTP effects are modelled by an explicit environment that
assigns a response to the inventory fetch and to each write request, and the
run becomes a function from that environment and the discovered file list to
the ordered list of HTTP calls issued, the log lines printed, and the exit
status.  JavaScript strings are Lean `String`s (for the base-path helper,
lists of characters).  Files are identified by their path relative to the
content root, exactly the value `path.relative(postsDirAbs, filePath)`
(joined with "/") computes in the script; `SITE_URL` is taken after the
script's trailing-slash strip.
-/

namespace DevtoSync

/-! ### Character-list implementations of the string operations used

The JavaScript string operations the script uses (`split`, `join`,
`startsWith`, case-insensitive suffix test, `slice`, `trim`) are implemented
here by structural recursion on the string's character list. -/

/-- `split("/")`: `""` yields `[""]`, separators delimit (possibly empty)
fields.  `cur` is the reversed current field. -/
def splitSlashAux : List Char → List Char → List (List Char)
  | [], cur => [cur.reverse]
  | c :: rest, cur =>
    if c = '/' then cur.reverse :: splitSlashAux rest []
    else splitSlashAux rest (c :: cur)

def splitSlash (cs : List Char) : List (List Char) :=
  splitSlashAux cs []

/-- `join(sep)` of a list of fields. -/
def joinSep (sep : Char) : List (List Char) → List Char
  | [] => []
  | [w] => w
  | w :: ws => w ++ sep :: joinSep sep ws

/-- Drop `n` characters from the end. -/
def dropRightL (n : Nat) (cs : List Char) : List Char :=
  (cs.reverse.drop n).reverse

/-- ASCII lower-casing of one character. -/
def toLowerCh (c : Char) : Char :=
  if 'A' ≤ c ∧ c ≤ 'Z' then Char.ofNat (c.toNat + 32) else c

/-- Case-insensitive suffix test; `suffix` is given in lower case. -/
def endsWithCI (suffix cs : List Char) : Bool :=
  (cs.reverse.take suffix.length).map toLowerCh == suffix.reverse

/-- `startsWith(c)` for a one-character pattern. -/
def startsWithCh (c : Char) (cs : List Char) : Bool :=
  cs.head? == some c

def isWsCh (c : Char) : Bool :=
  c = ' ' || c = '\t' || c = '\n' || c = '\r'

/-- `trim()`: remove leading and trailing whitespace. -/
def trimL (cs : List Char) : List Char :=
  ((cs.dropWhile isWsCh).reverse.dropWhile isWsCh).reverse

/-! ### Kebab-casing

`canonicalUrlForFile` maps each path segment through `lodash.kebabcase`,
a dependency whose source is not part of this repository. -/

def isLowerCh (c : Char) : Bool := 'a' ≤ c && c ≤ 'z'

def isUpperCh (c : Char) : Bool := 'A' ≤ c && c ≤ 'Z'

def isDigitCh (c : Char) : Bool := '0' ≤ c && c ≤ '9'

def isAlnumCh (c : Char) : Bool := isLowerCh c || isUpperCh c || isDigitCh c

/-- A word boundary between two adjacent alphanumeric characters `a` and `b`
(`after` is the character following `b`, when any): lower→upper, letter↔digit,
and the break before the last capital of an upper-case run followed by a
lower-case letter. -/
def wordBreak (a b : Char) (after : Option Char) : Bool :=
  (isLowerCh a && isUpperCh b) ||
  ((isLowerCh a || isUpperCh a) && isDigitCh b) ||
  (isDigitCh a && (isLowerCh b || isUpperCh b)) ||
  (isUpperCh a && isUpperCh b &&
    (match after with | some c => isLowerCh c | none => false))

/-- Split a character list into words: non-alphanumeric characters separate
words, and `wordBreak` boundaries split runs of alphanumerics.  `cur` is the
reversed current word. -/
def wordsAux : List Char → List Char → List (List Char)
  | [], cur => if cur.isEmpty then [] else [cur.reverse]
  | c :: rest, cur =>
    if isAlnumCh c then
      match cur with
      | [] => wordsAux rest [c]
      | p :: _ =>
        if wordBreak p c rest.head? then cur.reverse :: wordsAux rest [c]
        else wordsAux rest (c :: cur)
    else
      (if cur.isEmpty then [] else [cur.reverse]) ++ wordsAux rest []

/-- Modelled from the spec: the `lodash.kebabcase` dependency
("lower-kebab-casing each remaining segment"); its source is not in the
repository.  Splits the segment into words at non-alphanumerics, case
boundaries and letter/digit boundaries, lower-cases each word, and joins the
words with `-`. -/
def kebabCase (s : String) : String :=
  String.mk (joinSep '-' ((wordsAux s.data []).map (fun w => w.map toLowerCh)))

/-! ### Canonical-URL derivation (`canonicalUrlForFile`) -/

/-- The script's `rel.replace(/\.(md|mdx)$/i, "")`: strip one trailing
`.md` or `.mdx`, case-insensitively. -/
def stripMdExt (s : String) : String :=
  if endsWithCI ".mdx".data s.data then String.mk (dropRightL 4 s.data)
  else if endsWithCI ".md".data s.data then String.mk (dropRightL 3 s.data)
  else s

/-- `canonicalUrlForFile` from `scripts/sync-devto.mjs`, as a function of the
site base URL and the file's path relative to the content root: strip the
Markdown extension, split on `/`, drop empty segments (`filter(Boolean)`)
and segments starting with `_`, kebab-case the rest, and join onto
`siteUrl ++ "/posts/"`. -/
def canonicalUrlForFile (siteUrl relPath : String) : String :=
  let withoutExt := stripMdExt relPath
  let segments :=
    (((splitSlash withoutExt.data).filter (fun s => ¬ s.isEmpty)).filter
        (fun s => ¬ startsWithCh '_' s)).map (fun s => (kebabCase (String.mk s)).data)
  siteUrl ++ "/posts/" ++ String.mk (joinSep '/' segments)

/-- Written from the spec's words, for comparison with the source-derived
`canonicalUrlForFile`: "stripping extension, removing path segments that
begin with an exclusion marker, lower-kebab-casing each remaining segment,
and joining with a fixed URL prefix and site base URL". -/
def canonicalUrlSpec (siteUrl relPath : String) : String :=
  let segs := (splitSlash (stripMdExt relPath).data).filter (fun s => ¬ s.isEmpty)
  let kept := segs.filter (fun s => ¬ startsWithCh '_' s)
  siteUrl ++ "/posts/" ++ String.mk (joinSep '/' (kept.map (fun s => (kebabCase (String.mk s)).data)))

/-! ### Front matter and the outbound payload -/

/-- Shape of the front-matter `tags` field as the script distinguishes it:
an array (of strings – `String(...)` is the identity on strings), a single
string, absent, or any other value. -/
inductive TagsField where
  | arr (xs : List String)
  | str (s : String)
  | missing
  | other
  deriving DecidableEq

/-- The front-matter fields the script reads from `matter(raw).data`. -/
structure FrontMatter where
  title : Option String
  description : Option String
  draft : Option Bool
  tags : TagsField
  deriving DecidableEq

/-- A discovered local Markdown file: its path relative to the content root,
its parsed front matter, and its body (`matter(raw).content`). -/
structure LocalFile where
  relPath : String
  fm : FrontMatter
  content : String
  deriving DecidableEq

/-- The script's tags expression:
`Array.isArray(t) ? t.map(String).slice(0, 4) : typeof t === "string" ? [t].slice(0, 4) : []`. -/
def tagsPayload : TagsField → List String
  | .arr xs => xs.take 4
  | .str s => [s].take 4
  | .missing => []
  | .other => []

/-- The script's `data.draft ? false : true`. -/
def publishedOf : Option Bool → Bool
  | some true => false
  | _ => true

/-- The `article` object the script sends as the POST/PUT body. -/
structure Payload where
  title : Option String
  body_markdown : String
  tags : List String
  description : String
  canonical_url : String
  published : Bool
  deriving DecidableEq

/-- Build the outbound payload for one file (body of the per-file loop up to
`const payload = ...`).  `data.description || ""` is `getD ""` because an
absent or empty description both yield `""`. -/
def mkPayload (siteUrl : String) (f : LocalFile) : Payload :=
  { title := f.fm.title
    body_markdown := String.mk (trimL f.content.data)
    tags := tagsPayload f.fm.tags
    description := f.fm.description.getD ""
    canonical_url := canonicalUrlForFile siteUrl f.relPath
    published := publishedOf f.fm.draft }

/-! ### The remote inventory and its lookup -/

/-- A remote article record as the script uses it: its platform id and its
(possibly absent) `canonical_url`. -/
structure RemoteArticle where
  id : Nat
  canonical_url : Option String
  deriving DecidableEq

/-- JavaScript `Map.prototype.set` on an association list: an existing key
keeps its position and gets the new value, a new key is appended. -/
def mapSet {α : Type} : List (String × α) → String → α → List (String × α)
  | [], k, v => [(k, v)]
  | (k', v') :: rest, k, v =>
    if k' = k then (k', v) :: rest else (k', v') :: mapSet rest k v

/-- JavaScript `new Map(entries)`: set each entry in order. -/
def mapOfEntries {α : Type} (ps : List (String × α)) : List (String × α) :=
  ps.foldl (fun m p => mapSet m p.1 p.2) []

/-- JavaScript `Map.prototype.get`. -/
def mapGet {α : Type} (m : List (String × α)) (k : String) : Option α :=
  (m.find? (fun p => p.1 = k)).map (fun p => p.2)

/-- The script's
`myArticles.filter(a => typeof a?.canonical_url === "string" && a.canonical_url.length > 0).map(a => [a.canonical_url, a])`. -/
def inventoryEntries (arts : List RemoteArticle) : List (String × RemoteArticle) :=
  arts.filterMap (fun a =>
    match a.canonical_url with
    | some s => if s = "" then none else some (s, a)
    | none => none)

/-- `byCanonicalUrl` from the script: a `Map` built from the filtered
entries. -/
def buildByCanonicalUrl (arts : List RemoteArticle) : List (String × RemoteArticle) :=
  mapOfEntries (inventoryEntries arts)

/-! ### The run, with HTTP effects made explicit -/

/-- A non-success HTTP response as `devFetchJson` surfaces it:
`throw new Error(res.status + " " + res.statusText + ": " + text)`. -/
structure HttpError where
  status : Nat
  statusText : String
  body : String
  deriving DecidableEq

/-- One HTTP request the script can issue: the inventory GET, a creating
POST, or an updating PUT addressed by a platform id. -/
inductive Call where
  | inventory
  | create (payload : Payload)
  | update (id : Nat) (payload : Payload)
  deriving DecidableEq

/-- The environment of one run: the configured site URL, the response to the
inventory fetch, and the response to each write request. -/
structure SyncEnv where
  siteUrl : String
  inventoryResp : Except HttpError (List RemoteArticle)
  writeResp : Call → Except HttpError Unit

/-- The per-file decision (loop body after the payload is built): look the
derived canonical URL up in `byCanonicalUrl`; a hit yields a PUT addressed by
the matched article's id, a miss yields a POST — in either case with the full
payload — together with the line logged on success. -/
def syncFile (siteUrl : String) (byMap : List (String × RemoteArticle))
    (f : LocalFile) : Call × String :=
  let url := canonicalUrlForFile siteUrl f.relPath
  let payload := mkPayload siteUrl f
  match mapGet byMap url with
  | none => (Call.create payload, "Created: " ++ url)
  | some a => (Call.update a.id payload, "Updated: " ++ url)

/-- Result of the per-file loop: the write calls issued in order, the lines
logged, and the error that aborted the loop, if any. -/
structure LoopResult where
  calls : List Call
  logs : List String
  failure : Option HttpError
  deriving DecidableEq

/-- The `for (const filePath of files)` loop: one write call per file, its
log line printed after the call succeeds; the first non-success response
aborts the loop at once, before any later file is touched. -/
def processLoop (env : SyncEnv) (byMap : List (String × RemoteArticle)) :
    List LocalFile → LoopResult
  | [] => ⟨[], [], none⟩
  | f :: rest =>
    let c := (syncFile env.siteUrl byMap f).1
    match env.writeResp c with
    | .error e => ⟨[c], [], some e⟩
    | .ok _ =>
      let r := processLoop env byMap rest
      ⟨c :: r.calls, (syncFile env.siteUrl byMap f).2 :: r.logs, r.failure⟩

/-- How one run ends: `process.exit(0)` / falling off the end, or an
uncaught HTTP error. -/
inductive RunExit where
  | ok
  | httpError (e : HttpError)
  deriving DecidableEq

/-- The process exit code: 0 on success, non-zero on an uncaught error. -/
def RunExit.code : RunExit → Nat
  | .ok => 0
  | .httpError _ => 1

/-- Everything observable about one run: the HTTP calls issued in order, the
log lines printed, and the exit. -/
structure RunOutcome where
  calls : List Call
  logs : List String
  exit : RunExit
  deriving DecidableEq

/-- The script's top level after configuration and discovery: an empty file
list prints "No markdown files to sync." and exits 0 before any HTTP call;
otherwise the inventory is fetched (a non-success status aborts the run with
no write attempted), the lookup is built, and the files are processed in
order. -/
def runSync (env : SyncEnv) (files : List LocalFile) : RunOutcome :=
  if files.isEmpty then
    ⟨[], ["No markdown files to sync."], .ok⟩
  else
    match env.inventoryResp with
    | .error e => ⟨[Call.inventory], [], .httpError e⟩
    | .ok arts =>
      let r := processLoop env (buildByCanonicalUrl arts) files
      ⟨Call.inventory :: r.calls, r.logs,
        match r.failure with
        | some e => .httpError e
        | none => .ok⟩

/-! ### Concrete fixtures, used to instantiate the general theorems -/

/-- A local file whose derived URL matches the remote article `exArts` holds
(front matter follows the spec's end-to-end example: title "Hello", five
tags, not a draft). -/
def exFile1 : LocalFile :=
  ⟨"hello-world.md", ⟨some "Hello", none, some false, .arr ["a", "b", "c", "d", "e"]⟩, "body"⟩

/-- A local file with no matching remote article. -/
def exFile2 : LocalFile :=
  ⟨"another-post.md", ⟨some "Other", some "desc", none, .str "x"⟩, "text"⟩

/-- A draft file. -/
def exFileDraft : LocalFile :=
  ⟨"draft-post.md", ⟨some "Draft", none, some true, .missing⟩, "wip"⟩

/-- A file whose front matter has a `tags` value of some other shape. -/
def exFileOther : LocalFile :=
  ⟨"odd-tags.md", ⟨some "Odd", none, none, .other⟩, "hm"⟩

/-- A one-article remote inventory matching `exFile1`. -/
def exArts : List RemoteArticle :=
  [⟨7, some "https://example.com/posts/hello-world"⟩]

/-- A non-success HTTP response. -/
def exErr : HttpError := ⟨401, "Unauthorized", "missing api key"⟩

/-- An environment whose every request succeeds. -/
def envOk : SyncEnv := ⟨"https://example.com", .ok exArts, fun _ => .ok ()⟩

/-- An environment whose inventory fetch fails. -/
def envInvFail : SyncEnv := ⟨"https://example.com", .error exErr, fun _ => .ok ()⟩

/-- An environment whose inventory fetch succeeds but every write fails. -/
def envWriteFail : SyncEnv := ⟨"https://example.com", .ok exArts, fun _ => .error exErr⟩

end DevtoSync

namespace SiteBase

/-! ### The base-path helper (`src/utils/base.ts`)

Strings are modelled as their character lists.  `basePath` is the module's
constant derived from `BASE_URL` (`""` when the base URL is `/`, otherwise the
base URL without its trailing slash); `withBase` takes it as an explicit
argument. -/

/-- `withBase` from `src/utils/base.ts`: with an empty base path, ensure a
leading slash; otherwise return the path unchanged when it already is the
base path or starts with `basePath ++ "/"`, and prefix the base path onto the
slash-normalized path otherwise. -/
def withBase (basePath path : List Char) : List Char :=
  if basePath = [] then
    if path.head? = some '/' then path else '/' :: path
  else if path = basePath ∨ (basePath ++ ['/']).isPrefixOf path then path
  else basePath ++ (if path.head? = some '/' then path else '/' :: path)

end SiteBase

namespace DevtoSync

/-! ### Helper lemmas -/

/-- When every write for the listed files succeeds, the loop issues the
per-file call and logs the per-file line for each file in order, and
fails nowhere. -/
theorem processLoop_of_ok (env : SyncEnv) (byMap : List (String × RemoteArticle)) :
    ∀ files : List LocalFile,
      (∀ f ∈ files, env.writeResp (syncFile env.siteUrl byMap f).1 = .ok ()) →
      processLoop env byMap files =
        ⟨files.map (fun f => (syncFile env.siteUrl byMap f).1),
         files.map (fun f => (syncFile env.siteUrl byMap f).2), none⟩
  | [], _ => rfl
  | f :: rest, h => by
    have hf := h f (List.mem_cons_self f rest)
    have ih := processLoop_of_ok env byMap rest
      (fun g hg => h g (List.mem_cons_of_mem f hg))
    simp [processLoop, hf, ih]

/-- When the writes for `pre` succeed and the write for `f` fails, the loop
issues exactly the calls for `pre` and then the one for `f`, logs only the
lines for `pre`, and stops with the failure — whatever follows in `rest`. -/
theorem processLoop_error (env : SyncEnv) (byMap : List (String × RemoteArticle))
    (e : HttpError) :
    ∀ (pre : List LocalFile) (f : LocalFile) (rest : List LocalFile),
      (∀ g ∈ pre, env.writeResp (syncFile env.siteUrl byMap g).1 = .ok ()) →
      env.writeResp (syncFile env.siteUrl byMap f).1 = .error e →
      processLoop env byMap (pre ++ f :: rest) =
        ⟨pre.map (fun g => (syncFile env.siteUrl byMap g).1) ++
          [(syncFile env.siteUrl byMap f).1],
         pre.map (fun g => (syncFile env.siteUrl byMap g).2),
         some e⟩
  | [], f, rest, _, hf => by simp [processLoop, hf]
  | g :: pre, f, rest, hpre, hf => by
    have hg := hpre g (List.mem_cons_self g pre)
    have ih := processLoop_error env byMap e pre f rest
      (fun g' hg' => hpre g' (List.mem_cons_of_mem g hg')) hf
    simp [processLoop, hg, ih]

/-- `Map.get` after `Map.set`: the set key now maps to the new value, other
keys are untouched. -/
theorem mapGet_mapSet {α : Type} (k' k : String) (v : α) :
    ∀ m : List (String × α),
      mapGet (mapSet m k' v) k = if k' = k then some v else mapGet m k
  | [] => by
    by_cases h : k' = k <;> simp [mapGet, mapSet, List.find?, h]
  | (k₀, v₀) :: t => by
    have ih := mapGet_mapSet k' k v t
    by_cases h0 : k₀ = k'
    · subst h0
      by_cases h : k₀ = k <;> simp [mapGet, mapSet, List.find?, h]
    · by_cases h : k₀ = k
      · subst h
        have : ¬ k' = k₀ := fun hc => h0 hc.symm
        simp [mapGet, mapSet, List.find?, h0, this]
      · simp [mapGet, mapSet, List.find?, h0, h] at ih ⊢
        exact ih

/-- `Map.get` over entries inserted by a left fold: the *last* entry with
the key wins; keys never inserted fall through to the initial map. -/
theorem mapGet_foldl {α : Type} (k : String) :
    ∀ (ps : List (String × α)) (m : List (String × α)),
      mapGet (ps.foldl (fun acc p => mapSet acc p.1 p.2) m) k =
        ((ps.reverse.find? (fun p => p.1 = k)).map Prod.snd).or (mapGet m k)
  | [], m => by simp
  | p :: ps, m => by
    have ih := mapGet_foldl k ps (mapSet m p.1 p.2)
    simp only [List.foldl_cons] at ih ⊢
    rw [ih, mapGet_mapSet]
    simp only [List.reverse_cons, List.find?_append]
    cases hA : ps.reverse.find? (fun p => p.1 = k) with
    | none =>
      by_cases hq : p.1 = k <;> simp [List.find?, hq]
    | some a => simp

/-- `Map.get` on a map built from an entries list is the value of the last
entry carrying the key. -/
theorem mapGet_mapOfEntries {α : Type} (ps : List (String × α)) (k : String) :
    mapGet (mapOfEntries ps) k =
      (ps.reverse.find? (fun p => p.1 = k)).map Prod.snd := by
  rw [mapOfEntries, mapGet_foldl]
  simp [mapGet]

/-- On the filtered inventory entries, looking a non-empty URL up as a key
finds exactly the article whose `canonical_url` is that URL. -/
theorem find?_inventoryEntries (k : String) (hk : k ≠ "") :
    ∀ l : List RemoteArticle,
      ((inventoryEntries l).find? (fun p => p.1 = k)).map Prod.snd =
        l.find? (fun a => a.canonical_url = some k) := by
  intro l
  rw [inventoryEntries, List.find?_filterMap]
  have hpred : (fun a : RemoteArticle =>
      ((match a.canonical_url with
        | some s => if s = "" then none else some (s, a)
        | none => none) : Option (String × RemoteArticle)).any (fun p => p.1 = k)) =
      (fun a : RemoteArticle => (a.canonical_url = some k : Bool)) := by
    funext a
    cases hcu : a.canonical_url with
    | none => simp [hcu]
    | some s =>
      by_cases hs : s = ""
      · subst hs
        simp [Option.any]
        intro h
        exact absurd h.symm hk
      · simp [hs, Option.any]
  rw [hpred]
  cases hfind : l.find? (fun a : RemoteArticle => (a.canonical_url = some k : Bool)) with
  | none => simp
  | some a =>
    have ha : a.canonical_url = some k := by
      have := List.find?_some hfind
      simpa using this
    simp [ha, hk]

/-- C3: the canonical URL is a pure, deterministic function of the file's
path relative to the content root and the site base URL: files sharing a
relative path get the same payload `canonical_url` whatever their front
matter and body, and the source-derived `canonicalUrlForFile` agrees with
`canonicalUrlSpec`, the spec's description of the derivation (strip the
Markdown extension, omit every segment beginning with `_`, kebab-case each
remaining segment, join onto the site base URL after a fixed `/posts/`
prefix). -/
theorem sync_c3_canonical_url_pure (siteUrl : String) :
    (∀ f g : LocalFile, f.relPath = g.relPath →
      (mkPayload siteUrl f).canonical_url = (mkPayload siteUrl g).canonical_url) ∧
    (∀ relPath : String,
      canonicalUrlForFile siteUrl relPath = canonicalUrlSpec siteUrl relPath) := by
  refine ⟨fun f g h => ?_, fun relPath => rfl⟩
  simp only [mkPayload, h]

/-- Witness for C3 at concrete inputs: two files at the same relative path
with different front matter and bodies derive the same canonical URL. -/
theorem sync_c3_witness :
    (mkPayload "https://example.com"
        ⟨"hello-world.md", ⟨some "Hello", none, some false, .arr ["a"]⟩, "body"⟩).canonical_url =
      (mkPayload "https://example.com"
        ⟨"hello-world.md", ⟨some "Bye", some "d", some true, .str "x"⟩, "other"⟩).canonical_url ∧
    canonicalUrlForFile "https://example.com" "hello-world.md" =
      canonicalUrlSpec "https://example.com" "hello-world.md" :=
  ⟨(sync_c3_canonical_url_pure "https://example.com").1 _ _ rfl,
   (sync_c3_canonical_url_pure "https://example.com").2 "hello-world.md"⟩

/-- C4 counterexample: for a file at relative path `posts/hello-world.md`
under the content root with site base URL `https://example.com`, the code
derives `https://example.com/posts/posts/hello-world` — the `posts` path
segment is kept and kebab-cased like any other segment, so the fixed
`/posts/` prefix is followed by it — and not the claimed
`https://example.com/posts/hello-world`. -/
theorem sync_c4_counterexample :
    canonicalUrlForFile "https://example.com" "posts/hello-world.md" =
      "https://example.com/posts/posts/hello-world" ∧
    canonicalUrlForFile "https://example.com" "posts/hello-world.md" ≠
      "https://example.com/posts/hello-world" := by
  constructor
  · rfl
  · decide

/-- C4 amended: for a file at relative path `hello-world.md` under the
content root (the spec's `posts/hello-world.md` example read with `posts` as
the content root) and site base URL `https://example.com`, the derived
canonical URL is `https://example.com/posts/hello-world`. -/
theorem sync_c4_amended :
    canonicalUrlForFile "https://example.com" "hello-world.md" =
      "https://example.com/posts/hello-world" := by
  rfl

/-- C5: with zero discovered files the run issues no HTTP call at all — the
inventory fetch included — prints "No markdown files to sync." and exits
with code 0. -/
theorem sync_c5_empty_run (env : SyncEnv) :
    runSync env [] = ⟨[], ["No markdown files to sync."], .ok⟩ ∧
    (runSync env []).exit.code = 0 :=
  ⟨rfl, rfl⟩

/-- C7: a front-matter tags array of more than four elements is truncated to
exactly its first four, in their original order, with no error. -/
theorem sync_c7_tag_truncation (siteUrl : String) (f : LocalFile)
    (xs : List String) (htags : f.fm.tags = .arr xs) (hlen : 4 < xs.length) :
    (mkPayload siteUrl f).tags = xs.take 4 ∧
    (mkPayload siteUrl f).tags.length = 4 := by
  refine ⟨by simp [mkPayload, tagsPayload, htags], ?_⟩
  simp [mkPayload, tagsPayload, htags]
  omega

/-- Witness for C7: six tags give exactly the first four. -/
theorem sync_c7_witness :
    4 < (["a", "b", "c", "d", "e", "f"] : List String).length ∧
    (mkPayload "https://example.com"
        ⟨"six-tags.md", ⟨some "T", none, none, .arr ["a", "b", "c", "d", "e", "f"]⟩, "b"⟩).tags =
      ["a", "b", "c", "d"] :=
  ⟨by decide,
   by
    rw [(sync_c7_tag_truncation "https://example.com"
      ⟨"six-tags.md", ⟨some "T", none, none, .arr ["a", "b", "c", "d", "e", "f"]⟩, "b"⟩
      ["a", "b", "c", "d", "e", "f"] rfl (by decide)).1]
    rfl⟩

/-- C8: the outbound `published` flag is a function of the front-matter
`draft` flag alone: `draft: true` gives `published: false`, an absent or
false `draft` gives `published: true`, and files agreeing on `draft` agree
on `published`. -/
theorem sync_c8_draft_published (siteUrl : String) :
    (∀ f : LocalFile, f.fm.draft = some true →
      (mkPayload siteUrl f).published = false) ∧
    (∀ f : LocalFile, f.fm.draft = none ∨ f.fm.draft = some false →
      (mkPayload siteUrl f).published = true) ∧
    (∀ f g : LocalFile, f.fm.draft = g.fm.draft →
      (mkPayload siteUrl f).published = (mkPayload siteUrl g).published) := by
  refine ⟨fun f h => by simp [mkPayload, publishedOf, h],
    fun f h => ?_, fun f g h => by simp [mkPayload, h]⟩
  rcases h with h | h <;> simp [mkPayload, publishedOf, h]

/-- Witness for C8: a draft file is unpublished; files with absent and
false `draft` are published. -/
theorem sync_c8_witness :
    (mkPayload "https://example.com" exFileDraft).published = false ∧
    (mkPayload "https://example.com" exFile2).published = true ∧
    (mkPayload "https://example.com" exFile1).published = true :=
  ⟨(sync_c8_draft_published "https://example.com").1 exFileDraft rfl,
   (sync_c8_draft_published "https://example.com").2.1 exFile2 (Or.inl rfl),
   (sync_c8_draft_published "https://example.com").2.1 exFile1 (Or.inr rfl)⟩

/-- C1: in a run whose every request succeeds, the calls issued are the
inventory fetch followed by exactly one write per file, in file order: an
update addressed by the matched article's platform id with the full payload
when the inventory lookup has an article at the file's derived canonical
URL, and a create with the full payload when it has none. -/
theorem sync_c1_create_or_update (env : SyncEnv) (arts : List RemoteArticle)
    (files : List LocalFile) (hinv : env.inventoryResp = .ok arts)
    (hw : ∀ c : Call, env.writeResp c = .ok ()) (hne : files ≠ []) :
    (runSync env files).calls =
      Call.inventory :: files.map (fun f =>
        match mapGet (buildByCanonicalUrl arts)
            (canonicalUrlForFile env.siteUrl f.relPath) with
        | some a => Call.update a.id (mkPayload env.siteUrl f)
        | none => Call.create (mkPayload env.siteUrl f)) := by
  have hne' : files.isEmpty = false := by
    cases files with
    | nil => exact absurd rfl hne
    | cons a l => rfl
  have hcall : ∀ f : LocalFile,
      (syncFile env.siteUrl (buildByCanonicalUrl arts) f).1 =
        match mapGet (buildByCanonicalUrl arts)
            (canonicalUrlForFile env.siteUrl f.relPath) with
        | some a => Call.update a.id (mkPayload env.siteUrl f)
        | none => Call.create (mkPayload env.siteUrl f) := by
    intro f
    cases h : mapGet (buildByCanonicalUrl arts)
        (canonicalUrlForFile env.siteUrl f.relPath) <;>
      simp [syncFile, h]
  simp only [runSync, hne', Bool.false_eq_true, if_false, hinv,
    processLoop_of_ok env (buildByCanonicalUrl arts) files (fun f _ => hw _)]
  exact congrArg _ (List.map_congr_left fun f _ => hcall f)

/-- Witness for C1: with a one-article inventory matching `exFile1`, a run
over `exFile1` (matched: one PUT addressed by id 7) and `exFile2`
(unmatched: one POST) issues exactly those calls after the inventory
fetch. -/
theorem sync_c1_witness :
    (runSync envOk [exFile1, exFile2]).calls =
      [Call.inventory,
       Call.update 7 (mkPayload "https://example.com" exFile1),
       Call.create (mkPayload "https://example.com" exFile2)] := by
  rw [sync_c1_create_or_update envOk exArts [exFile1, exFile2] rfl
    (fun c => rfl) (by simp)]
  rfl

/-- C2: a non-success response anywhere aborts the run at once with an
error carrying the response's status code, status text and body: a failed
inventory fetch ends the run with that error after no write call at all, and
a failed write ends the run with that error right after the failing call —
files after it are never processed, whatever they are. -/
theorem sync_c2_fail_fast (env : SyncEnv) (e : HttpError) :
    (∀ files : List LocalFile, files ≠ [] → env.inventoryResp = .error e →
      runSync env files = ⟨[Call.inventory], [], .httpError e⟩) ∧
    (∀ (arts : List RemoteArticle) (pre : List LocalFile) (f : LocalFile)
        (rest : List LocalFile),
      env.inventoryResp = .ok arts →
      (∀ g ∈ pre,
        env.writeResp (syncFile env.siteUrl (buildByCanonicalUrl arts) g).1 = .ok ()) →
      env.writeResp (syncFile env.siteUrl (buildByCanonicalUrl arts) f).1 = .error e →
      runSync env (pre ++ f :: rest) =
        ⟨Call.inventory ::
          (pre.map (fun g => (syncFile env.siteUrl (buildByCanonicalUrl arts) g).1) ++
            [(syncFile env.siteUrl (buildByCanonicalUrl arts) f).1]),
         pre.map (fun g => (syncFile env.siteUrl (buildByCanonicalUrl arts) g).2),
         .httpError e⟩) := by
  constructor
  · intro files hne hinv
    have hne' : files.isEmpty = false := by
      cases files with
      | nil => exact absurd rfl hne
      | cons a l => rfl
    simp [runSync, hne', hinv]
  · intro arts pre f rest hinv hpre hf
    have hne' : (pre ++ f :: rest).isEmpty = false := by
      cases pre <;> rfl
    simp [runSync, hne', hinv,
      processLoop_error env (buildByCanonicalUrl arts) e pre f rest hpre hf]

/-- Witness for C2: a failed inventory fetch yields a run with only the
inventory call and the error; a failed first write yields a run that stops
right after that write, never touching the second file. -/
theorem sync_c2_witness :
    runSync envInvFail [exFile1] = ⟨[Call.inventory], [], .httpError exErr⟩ ∧
    runSync envWriteFail [exFile1, exFile2] =
      ⟨[Call.inventory, Call.update 7 (mkPayload "https://example.com" exFile1)],
       [], .httpError exErr⟩ := by
  constructor
  · exact (sync_c2_fail_fast envInvFail exErr).1 [exFile1] (by simp) rfl
  · have h := (sync_c2_fail_fast envWriteFail exErr).2 exArts [] exFile1 [exFile2]
      rfl (by simp) rfl
    exact h

/-- C6: the inventory lookup maps a non-empty canonical URL to the *last*
article in fetched order whose `canonical_url` equals it — so with duplicate
canonical URLs the later entry silently overwrites the earlier one — and
articles with an absent or empty `canonical_url` are excluded (the empty key
maps to nothing, and only articles with `canonical_url = some k` can be
found at a key `k`). -/
theorem sync_c6_last_write_wins (arts : List RemoteArticle) (k : String) :
    mapGet (buildByCanonicalUrl arts) k =
      if k = "" then none
      else arts.reverse.find? (fun a => a.canonical_url = some k) := by
  rw [buildByCanonicalUrl, mapGet_mapOfEntries]
  by_cases hk : k = ""
  · subst hk
    rw [if_pos rfl]
    have hnone : (inventoryEntries arts).reverse.find?
        (fun p => (p.1 = "" : Bool)) = none := by
      rw [List.find?_eq_none]
      intro x hx
      rw [List.mem_reverse, inventoryEntries, List.mem_filterMap] at hx
      obtain ⟨a, _, hfa⟩ := hx
      cases hcu : a.canonical_url with
      | none => rw [hcu] at hfa; exact absurd hfa (by simp)
      | some s =>
        rw [hcu] at hfa
        by_cases hs : s = ""
        · simp [hs] at hfa
        · simp [hs] at hfa
          subst hfa
          simp [hs]
    rw [hnone]
    rfl
  · rw [if_neg hk]
    have hrev : (inventoryEntries arts).reverse = inventoryEntries arts.reverse := by
      rw [inventoryEntries, inventoryEntries, List.filterMap_reverse]
    rw [hrev]
    exact find?_inventoryEntries k hk arts.reverse

/-- C10: a missing tags field, or one of any shape other than an array or a
string, yields an empty outbound tags list; a single string yields the
one-element list holding it; every shape is handled without error. -/
theorem sync_c10_tags_shapes (siteUrl : String) :
    (∀ f : LocalFile, f.fm.tags = .missing → (mkPayload siteUrl f).tags = []) ∧
    (∀ f : LocalFile, f.fm.tags = .other → (mkPayload siteUrl f).tags = []) ∧
    (∀ (f : LocalFile) (s : String), f.fm.tags = .str s →
      (mkPayload siteUrl f).tags = [s]) := by
  refine ⟨fun f h => ?_, fun f h => ?_, fun f s h => ?_⟩ <;>
    simp [mkPayload, tagsPayload, h]

/-- Witness for C10: the three non-array shapes at concrete files. -/
theorem sync_c10_witness :
    (mkPayload "https://example.com" exFileDraft).tags = [] ∧
    (mkPayload "https://example.com" exFileOther).tags = [] ∧
    (mkPayload "https://example.com" exFile2).tags = ["x"] :=
  ⟨(sync_c10_tags_shapes "https://example.com").1 exFileDraft rfl,
   (sync_c10_tags_shapes "https://example.com").2.1 exFileOther rfl,
   (sync_c10_tags_shapes "https://example.com").2.2 exFile2 "x" rfl⟩

end DevtoSync

namespace SiteBase

/-- C9: `withBase` is idempotent for every path, with an empty configured
base path (where it only ensures a leading slash) as with a non-empty one
(where a path already carrying the base-path prefix is returned
unchanged). -/
theorem base_c9_withBase_idempotent (basePath path : List Char) :
    withBase basePath (withBase basePath path) = withBase basePath path := by
  by_cases hb : basePath = []
  · subst hb
    by_cases hp : path.head? = some '/' <;> simp [withBase, hp]
  · by_cases ht : path = basePath ∨ (basePath ++ ['/']).isPrefixOf path
    · simp only [withBase, if_neg hb, if_pos ht]
    · simp only [withBase, if_neg hb, if_neg ht]
      obtain ⟨t, htEq⟩ :
          ∃ t, (if path.head? = some '/' then path else '/' :: path) = '/' :: t := by
        by_cases hp : path.head? = some '/'
        · cases path with
          | nil => simp at hp
          | cons c cs =>
            simp only [List.head?_cons, Option.some.injEq] at hp
            exact ⟨cs, by simp [hp]⟩
        · exact ⟨path, by simp [hp]⟩
      rw [htEq]
      have hpref : (basePath ++ ['/']).isPrefixOf (basePath ++ '/' :: t) := by
        rw [List.isPrefixOf_iff_prefix]
        exact ⟨t, by simp⟩
      rw [if_pos (Or.inr hpref)]

end SiteBase
